import Mathlib

/-!
Shallow embedding of the CUDA data-provider builder
(`catboost/cuda/data/load_data.cpp`) and the collaborators its compile
phase (`TDataProviderBuilder::Finish`) relies on.

Modelling conventions:
* raw byte blobs reinterpreted as typed arrays in the source are modelled
  as typed lists (one ingestion channel per feature), as suggested by the
  spec's design notes;
* `float` scalars (targets, weights, raw feature values, borders) are
  modelled as `Int`: every operation performed on them by this code is
  equality, sign test and order comparison, no float arithmetic occurs;
* `ui64` timestamps, seeds and group ids are modelled as `Nat`;
* fallible code (`CB_ENSURE`) is modelled with `Except TError`;
* collaborators that live outside the inspected source file
  (`CreateOrderByKey`, `Shuffle`, `QueryConsistentShuffle`,
  `FillQueryPairs`, the perfect-hash helper, the border builder, the
  binarizer) are modelled from the spec; each such definition carries a
  doc comment starting with `Modelled from the spec:`.
-/

instance exceptDecidableEq {ε α : Type} [DecidableEq ε] [DecidableEq α] :
    DecidableEq (Except ε α) := fun x y =>
  match x, y with
  | .error a, .error b =>
      decidable_of_iff (a = b) ⟨fun h => h ▸ rfl, fun h => by injection h⟩
  | .error _, .ok _ => isFalse (fun h => Except.noConfusion h)
  | .ok _, .error _ => isFalse (fun h => Except.noConfusion h)
  | .ok a, .ok b =>
      decidable_of_iff (a = b) ⟨fun h => h ▸ rfl, fun h => by injection h⟩

/-- NaN-handling policy of a float feature (`ENanMode`). -/
inductive ENanMode where
  | Forbidden
  | Min
  | Max
deriving DecidableEq

/-- Kind of a feature blob (`EFeatureValuesType`). -/
inductive EFeatureValuesType where
  | Float
  | Categorical
  | BinarizedFloat
deriving DecidableEq

/-- A pairwise-ranking pair (`TPair`): winner index, loser index, weight. -/
structure TPair where
  WinnerId : Nat
  LoserId : Nat
  Weight : Int
deriving DecidableEq

/-- A compiled feature column.  The bit-packed buffer produced by
`CompressVector` is a lossless order-preserving encoding of the code
sequence, so the column is modelled as holding the code sequence itself. -/
inductive TFeatureColumn where
  | TCatFeatureValuesHolder (featureId : Nat) (size : Nat) (codes : List Nat)
      (uniqueValues : Nat) (name : String)
  | TBinarizedFloatValuesHolder (featureId : Nat) (size : Nat) (nanMode : ENanMode)
      (borders : List Int) (bins : List Nat) (name : String)
deriving DecidableEq

/-- Feature id stored inside a compiled column. -/
def TFeatureColumn.featureId : TFeatureColumn → Nat
  | .TCatFeatureValuesHolder fid _ _ _ _ => fid
  | .TBinarizedFloatValuesHolder fid _ _ _ _ _ => fid

/-- The fatal errors `Finish` can raise (each `CB_ENSURE` in the source). -/
inductive TError where
  | cantFinishTwice
  | pairsWithoutQueryIds
  | weightsNegative
  | allWeightsZero
  | constantTargetNoPairs
deriving DecidableEq

/-- The exact message text each error carries in the source. -/
def TError.message : TError → String
  | .cantFinishTwice => "Error: can't finish more than once"
  | .pairsWithoutQueryIds => "Error: for GPU pairwise learning you should provide query id column. Query ids will be used to split data between devices and for dynamic boosting learning scheme."
  | .weightsNegative => "Weights can't be negative"
  | .allWeightsZero => "Error: all weights are zero"
  | .constantTargetNoPairs => "Error: input target is constant and there are no pairs. No way you could learn on such dataset"

/-- Association-list lookup keyed by feature id (first match wins). -/
def findVal {β : Type} : List (Nat × β) → Nat → Option β
  | [], _ => none
  | (k, v) :: rest, key => if k = key then some v else findVal rest key

/-- The shared feature-metadata store (`TBinarizedFeaturesManager`):
per-feature NaN-mode cache and float-border cache. -/
structure TBinarizedFeaturesManager where
  NanModeCache : List (Nat × ENanMode)
  FloatBordersCache : List (Nat × List Int)
deriving DecidableEq

/-- The builder state at the moment `Finish` is called (fields of
`TDataProviderBuilder` that the compile phase reads). -/
structure TDataProviderBuilder where
  Targets : List Int
  Weights : List Int
  QueryIds : List Nat
  SubgroupIds : List Nat
  Timestamp : List Nat
  FeatureBlobs : List (List Int)
  FeatureTypes : List EFeatureValuesType
  Borders : List (List Int)
  NanModes : List ENanMode
  CatFeaturesHash : List (Nat × List Int)
  FeatureIds : List String
  IgnoreFeatures : List Nat
  Pairs : List TPair
  Seed : Nat
  ShuffleFlag : Bool
  IsTest : Bool
  IsDone : Bool
deriving DecidableEq

/-- The assembled dataset (`TDataProvider`) exposed after `Finish`. -/
structure TDataProvider where
  Order : List Nat
  Targets : List Int
  Weights : List Int
  QueryIds : List Nat
  SubgroupIds : List Nat
  Timestamp : List Nat
  Features : List TFeatureColumn
  FeatureNames : List String
  QueryPairs : List (Nat × List TPair)
deriving DecidableEq

/-- Modelled from the spec: `AreEqualTo(vec, value)` (a helper outside the
inspected file) holds when every element equals `value`; `Finish` uses it
to test whether any timestamp is non-zero. -/
def areEqualTo (l : List Nat) (v : Nat) : Bool := l.all (fun x => x = v)

/-- `HasQueryIds`: some query id differs from its own row index. -/
def hasQueryIds (qids : List Nat) : Bool :=
  (List.range qids.length).any (fun i => ¬ qids.getD i 0 = i)

/-- `IsConstant`: every element equals the first one (true on empty input,
whose loop body never runs). -/
def isConstant {α : Type} [DecidableEq α] : List α → Bool
  | [] => true
  | x :: xs => (x :: xs).all (fun y => y = x)

/-- `ValidateWeights` loop: throws at the first negative weight while
accumulating `hasNonZero` (`Abs(w) != 0` is `w ≠ 0`), then requires some
non-zero weight. -/
def validateWeightsLoop : List Int → Bool → Except TError Unit
  | [], hasNonZero => if hasNonZero then .ok () else .error .allWeightsZero
  | w :: ws, hasNonZero =>
      if w < 0 then .error .weightsNegative
      else validateWeightsLoop ws (hasNonZero || decide (¬ w = 0))

/-- `ValidateWeights`. -/
def validateWeights (weights : List Int) : Except TError Unit :=
  validateWeightsLoop weights false

/-- `MakeOrderedLine`: `line[i] = source[order[i]]` (the size consistency
`CB_ENSURE` always holds for well-formed builders and is not modelled). -/
def makeOrderedLine {α : Type} (source : List α) (order : List Nat) (d : α) : List α :=
  order.map (fun i => source.getD i d)

/-- Modelled from the spec: `ApplyOrderToMetaColumns` applies the Document
Order to a per-document array; an empty (cleared or absent) column is left
empty. -/
def applyOrderOpt {α : Type} (order : List Nat) (l : List α) (d : α) : List α :=
  if l.isEmpty then [] else makeOrderedLine l order d

/-- The distinct values of a list in first-seen order. -/
def distinctInOrder : List Nat → List Nat
  | [] => []
  | x :: xs => x :: (distinctInOrder xs).filter (fun y => decide (¬ y = x))

/-- Deterministic pseudo-random mixing of a seed and an index (the model's
stand-in for the seeded PRNG of the shuffle collaborators). -/
def mix (seed i : Nat) : Nat := ((i + seed + 1) * 2654435761) % 1000000007

/-- Index comparison that realises a seeded pseudo-random permutation:
order by mixed hash, ties broken by the value itself. -/
def shuffleRel (seed : Nat) (a b : Nat) : Prop :=
  mix seed a < mix seed b ∨ (mix seed a = mix seed b ∧ a ≤ b)

instance shuffleRelDecidable (seed : Nat) : DecidableRel (shuffleRel seed) := by
  intro a b
  unfold shuffleRel
  infer_instance

/-- Modelled from the spec: `Shuffle(seed, 1, n, &order)` replaces the
identity order with a uniform pseudo-random permutation of all row
indices, seeded deterministically from the caller-supplied seed. -/
def shuffleModel (seed n : Nat) : List Nat :=
  List.insertionSort (shuffleRel seed) (List.range n)

/-- Seeded deterministic permutation of a list of (distinct) group keys. -/
def shuffleList (seed : Nat) (ks : List Nat) : List Nat :=
  List.insertionSort (shuffleRel seed) ks

/-- Concatenation of the per-key row lists, in key order. -/
def groupConcat (f : Nat → List Nat) : List Nat → List Nat
  | [] => []
  | k :: ks => f k ++ groupConcat f ks

/-- Modelled from the spec: `QueryConsistentShuffle` randomizes the order
of groups while keeping every group's member rows contiguous and in their
original relative order within the group. -/
def queryConsistentShuffle (seed : Nat) (qids : List Nat) : List Nat :=
  groupConcat
    (fun k => (List.range qids.length).filter (fun i => decide (qids.getD i 0 = k)))
    (shuffleList seed (distinctInOrder qids))

/-- Stable ascending comparison of row indices by their key: strictly
smaller key first, ties broken by the original index. -/
def keyRel (key : List Nat) (i j : Nat) : Prop :=
  key.getD i 0 < key.getD j 0 ∨ (key.getD i 0 = key.getD j 0 ∧ i ≤ j)

instance keyRelDecidable (key : List Nat) : DecidableRel (keyRel key) := by
  intro a b
  unfold keyRel
  infer_instance

instance keyRelTotal (key : List Nat) : IsTotal Nat (keyRel key) := by
  constructor
  intro a b
  unfold keyRel
  omega

instance keyRelTrans (key : List Nat) : IsTrans Nat (keyRel key) := by
  constructor
  intro a b c
  unfold keyRel
  omega

/-- Modelled from the spec: `CreateOrderByKey` is the stable sort of the
row indices by timestamp ascending (original order preserved among equal
timestamps). -/
def createOrderByKey (key : List Nat) : List Nat :=
  List.insertionSort (keyRel key) (List.range key.length)

/-- Whether shuffling is still in effect after the timestamp check of
`Finish` (line 115-118 sets `ShuffleFlag = false` when any timestamp is
non-zero). -/
def effectiveShuffle (b : TDataProviderBuilder) : Bool :=
  b.ShuffleFlag && areEqualTo b.Timestamp 0

/-- The Document Order `Finish` computes (lines 111-118 and 137-145):
identity by default, stable timestamp sort when some timestamp is
non-zero, otherwise a (group-consistent) shuffle when requested. -/
def documentOrder (b : TDataProviderBuilder) : List Nat :=
  let n := b.Targets.length
  if ¬ areEqualTo b.Timestamp 0 then createOrderByKey b.Timestamp
  else if effectiveShuffle b then
    if hasQueryIds b.QueryIds then queryConsistentShuffle b.Seed b.QueryIds
    else shuffleModel b.Seed n
  else List.range n

/-- Whether `Finish` applies the order to the meta columns (line 147:
`ShuffleFlag || !Timestamp.empty()`, with `ShuffleFlag` already cleared
when timestamps are in use). -/
def doApplyOrder (b : TDataProviderBuilder) : Bool :=
  effectiveShuffle b || !b.Timestamp.isEmpty

/-- Modelled from the spec: `FillQueryPairs` derives the per-group pair
structures, grouping the supplied pairs by the group id of their winner
document. -/
def fillQueryPairs (pairs : List TPair) (qids : List Nat) : List (Nat × List TPair) :=
  (distinctInOrder qids).map
    (fun q => (q, pairs.filter (fun p => decide (qids.getD p.WinnerId 0 = q))))

/-- Modelled from the spec: `GetFeatureName` returns the caller-supplied
feature id string, falling back to the decimal feature index. -/
def getFeatureName (b : TDataProviderBuilder) (fid : Nat) : String :=
  b.FeatureIds.getD fid (toString fid)

/-- Modelled from the spec: the perfect-hash indexer assigns dense codes
in first-seen order starting at 0 and never reassigns an existing code;
`seen` is the list of raw values in code order. -/
def updatePerfectHashAndBinarize (seen : List Int) (values : List Int) :
    List Nat × List Int :=
  values.foldl
    (fun acc v =>
      let i := acc.2.indexOf v
      if i < acc.2.length then (acc.1 ++ [i], acc.2)
      else (acc.1 ++ [acc.2.length], acc.2 ++ [v]))
    ([], seen)

/-- The distinct values of an integer list in first-seen order. -/
def distinctInOrderInt : List Int → List Int
  | [] => []
  | x :: xs => x :: (distinctInOrderInt xs).filter (fun y => decide (¬ y = x))

/-- Modelled from the spec: the border/quantizer collaborator returns a
sorted sequence of boundary values separating the distinct values of the
column; a column with fewer than 2 distinct values yields no borders. -/
def buildBorders (values : List Int) : List Int :=
  (List.insertionSort (fun a b => a ≤ b) (distinctInOrderInt values)).dropLast

/-- Modelled from the spec: monotonic binning against sorted borders,
`value ≤ borders[0] → bin 0`, `value > borders[k-1] → bin k`; with no NaN
values in the modelled domain the bin of `v` is the number of borders
strictly below `v`. -/
def binarizeLine (values : List Int) (borders : List Int) : List Nat :=
  values.map (fun v => (borders.filter (fun x => decide (x < v))).length)

/-- Modelled from the spec: `GetBinCount` is `|borders| + 1`, plus one
when a NaN bin is needed. -/
def getBinCount (borders : List Int) (nan : ENanMode) : Nat :=
  borders.length + 1 + (if nan = ENanMode.Forbidden then 0 else 1)

/-- Modelled from the spec: `GetOrComputeNanMode` returns the cached mode
when present; in the NaN-free modelled domain a freshly computed mode is
`Forbidden`. -/
def getOrComputeNanMode (cached : Option ENanMode) : ENanMode :=
  cached.getD ENanMode.Forbidden

/-- Modelled from the spec: `SetOrCheckNanMode` records the mode when the
cache has none for the feature and keeps the recorded one otherwise. -/
def setOrCheckNanMode (cached : Option ENanMode) (nan : ENanMode) : Option ENanMode :=
  match cached with
  | none => some nan
  | some m => some m

/-- The slice of mutable state a single feature's compile step touches:
its blob, its `Borders`/`NanModes` entries, its perfect-hash rows and its
two per-feature metadata-cache entries (the shared store is keyed by
feature, so the parallel loop body only ever touches its own keys). -/
structure TFeatureSlice where
  blob : List Int
  borders : List Int
  nanMode : ENanMode
  seenCats : List Int
  cachedNanMode : Option ENanMode
  cachedBorders : Option (List Int)
deriving DecidableEq

/-- The result of one feature's compile step: the produced column (or
none), the code sequence that was binarized (none when the feature was
skipped before binarization), and the feature's state slice afterwards. -/
structure TFeatureSliceOut where
  column : Option TFeatureColumn
  binarized : Option (List Nat)
  blob : List Int
  borders : List Int
  nanMode : ENanMode
  seenCats : List Int
  cachedNanMode : Option ENanMode
deriving DecidableEq

/-- The borders the Float branch of the compile step ends up using
(source lines 234-251): the feature's `Borders` entry, overridden by the
shared cache when present, freshly built when still empty and not in
read-only/test mode. -/
def floatEffectiveBorders (isTest : Bool) (s : TFeatureSlice) (line : List Int) :
    List Int :=
  let borders1 := s.cachedBorders.getD s.borders
  if borders1 = [] && !isTest then buildBorders line else borders1

/-- Result of a feature whose blob is empty: untouched state, no column. -/
def emptyOut (s : TFeatureSlice) : TFeatureSliceOut :=
  { column := none, binarized := none, blob := s.blob, borders := s.borders,
    nanMode := s.nanMode, seenCats := s.seenCats, cachedNanMode := s.cachedNanMode }

/-- One feature's compile step: the body of the `ParallelFor` lambda of
`Finish` (source lines 165-277). -/
def compileFeature (isTest : Bool) (order : List Nat) (ftype : EFeatureValuesType)
    (fid : Nat) (name : String) (s : TFeatureSlice) : TFeatureSliceOut :=
  if s.blob = [] then emptyOut s
  else
    match ftype with
    | .Categorical =>
        let line := makeOrderedLine s.blob order 0
        if isTest && decide (s.seenCats.length = 0) then
          { emptyOut s with blob := [] }
        else
          let upd := updatePerfectHashAndBinarize s.seenCats line
          let uniqueValues := upd.2.length
          let col :=
            if 1 < uniqueValues then
              some (TFeatureColumn.TCatFeatureValuesHolder fid line.length upd.1
                uniqueValues name)
            else none
          { column := col, binarized := some upd.1, blob := [], borders := s.borders,
            nanMode := s.nanMode, seenCats := upd.2, cachedNanMode := s.cachedNanMode }
    | .BinarizedFloat =>
        if s.borders = [] then emptyOut s
        else
          let bins := (makeOrderedLine s.blob order 0).map Int.toNat
          let col := TFeatureColumn.TBinarizedFloatValuesHolder fid order.length
            s.nanMode s.borders bins name
          { column := some col, binarized := some bins, blob := [],
            borders := s.borders, nanMode := s.nanMode, seenCats := s.seenCats,
            cachedNanMode := setOrCheckNanMode s.cachedNanMode s.nanMode }
    | .Float =>
        let line := makeOrderedLine s.blob order 0
        let nan := getOrComputeNanMode s.cachedNanMode
        let borders2 := floatEffectiveBorders isTest s line
        if borders2 = [] then
          { column := none, binarized := none, blob := s.blob, borders := borders2,
            nanMode := nan, seenCats := s.seenCats, cachedNanMode := some nan }
        else
          let bins := binarizeLine line borders2
          let col := TFeatureColumn.TBinarizedFloatValuesHolder fid line.length nan
            borders2 bins name
          { column := some col, binarized := some bins, blob := [],
            borders := borders2, nanMode := nan, seenCats := s.seenCats,
            cachedNanMode := some nan }

/-- The state slice of feature `fid` before the compile phase. -/
def sliceOf (b : TDataProviderBuilder) (mgr : TBinarizedFeaturesManager)
    (fid : Nat) : TFeatureSlice :=
  { blob := b.FeatureBlobs.getD fid []
    borders := b.Borders.getD fid []
    nanMode := b.NanModes.getD fid ENanMode.Forbidden
    seenCats := (findVal b.CatFeaturesHash fid).getD []
    cachedNanMode := findVal mgr.NanModeCache fid
    cachedBorders := findVal mgr.FloatBordersCache fid }

/-- The parallel compile phase over all feature indices.  Each feature's
step reads and writes only its own state slice (the shared caches are
keyed by feature id and the lock only guards those per-key accesses), so
the fan-out is modelled as an independent map over the feature range. -/
def compilePhase (b : TDataProviderBuilder) (order : List Nat)
    (mgr : TBinarizedFeaturesManager) : List TFeatureSliceOut :=
  (List.range b.FeatureBlobs.length).map
    (fun fid =>
      compileFeature b.IsTest order (b.FeatureTypes.getD fid EFeatureValuesType.Float)
        fid (getFeatureName b fid) (sliceOf b mgr fid))

instance : Inhabited TFeatureSlice :=
  ⟨{ blob := [], borders := [], nanMode := ENanMode.Forbidden, seenCats := [],
     cachedNanMode := none, cachedBorders := none }⟩

instance : Inhabited TFeatureSliceOut := ⟨emptyOut default⟩

/-- Merge the per-feature NaN-mode cache entries written during the
compile phase back into the shared store. -/
def mergeNanCache (outs : List TFeatureSliceOut)
    (cache : List (Nat × ENanMode)) : List (Nat × ENanMode) :=
  (List.range outs.length).foldl
    (fun acc fid =>
      match (outs.getD fid default).cachedNanMode with
      | some m => if findVal acc fid = none then acc ++ [(fid, m)] else acc
      | none => acc)
    cache

/-- One step of the sequential reconciliation loop of `Finish` (source
lines 279-293): register freshly computed borders for non-categorical
features that produced a column and have none recorded yet, then append
the column when present. -/
def reconcileStep (types : List EFeatureValuesType)
    (columns : List (Option TFeatureColumn)) (bordersArr : List (List Int))
    (acc : List TFeatureColumn × TBinarizedFeaturesManager) (fid : Nat) :
    List TFeatureColumn × TBinarizedFeaturesManager :=
  let mgr :=
    if (¬ types.getD fid EFeatureValuesType.Float = EFeatureValuesType.Categorical)
        ∧ ¬ columns.getD fid none = none
        ∧ findVal acc.2.FloatBordersCache fid = none then
      { acc.2 with
        FloatBordersCache := acc.2.FloatBordersCache ++ [(fid, bordersArr.getD fid [])] }
    else acc.2
  match columns.getD fid none with
  | some c => (acc.1 ++ [c], mgr)
  | none => (acc.1, mgr)

/-- The sequential reconciliation loop of `Finish`. -/
def reconcile (types : List EFeatureValuesType)
    (columns : List (Option TFeatureColumn)) (bordersArr : List (List Int))
    (mgr : TBinarizedFeaturesManager) :
    List TFeatureColumn × TBinarizedFeaturesManager :=
  (List.range columns.length).foldl (reconcileStep types columns bordersArr) ([], mgr)

/-- The targets after the order is applied to the meta columns. -/
def orderedTargets (b : TDataProviderBuilder) : List Int :=
  if doApplyOrder b then applyOrderOpt (documentOrder b) b.Targets 0 else b.Targets

/-- The weights after the order is applied to the meta columns. -/
def orderedWeights (b : TDataProviderBuilder) : List Int :=
  if doApplyOrder b then applyOrderOpt (documentOrder b) b.Weights 0 else b.Weights

/-- The query ids kept by `Finish`: cleared entirely when every id equals
its own row index (lines 120-123), reordered otherwise. -/
def finishQueryIds (b : TDataProviderBuilder) : List Nat :=
  let qids1 := if hasQueryIds b.QueryIds then b.QueryIds else []
  if doApplyOrder b then applyOrderOpt (documentOrder b) qids1 0 else qids1

/-- Everything `Finish` produces when the validations pass. -/
structure TFinishOut where
  provider : TDataProvider
  blobsAfter : List (List Int)
  manager : TBinarizedFeaturesManager
deriving DecidableEq

/-- The error-free assembly part of `Finish`: order, meta-column
reordering, parallel compile, reconciliation. -/
def finishBuild (b : TDataProviderBuilder) (mgr : TBinarizedFeaturesManager) :
    TFinishOut :=
  let order := documentOrder b
  let outs := compilePhase b order mgr
  let mgr1 : TBinarizedFeaturesManager :=
    { NanModeCache := mergeNanCache outs mgr.NanModeCache
      FloatBordersCache := mgr.FloatBordersCache }
  let rec1 := reconcile b.FeatureTypes (outs.map (fun o => o.column))
    (outs.map (fun o => o.borders)) mgr1
  { provider :=
      { Order := order
        Targets := orderedTargets b
        Weights := orderedWeights b
        QueryIds := finishQueryIds b
        SubgroupIds :=
          if doApplyOrder b then applyOrderOpt order b.SubgroupIds 0 else b.SubgroupIds
        Timestamp :=
          if doApplyOrder b then applyOrderOpt order b.Timestamp 0 else b.Timestamp
        Features := rec1.1
        FeatureNames :=
          (List.range b.FeatureBlobs.length).map (fun fid => getFeatureName b fid)
        QueryPairs :=
          if ¬ b.Pairs = [] then fillQueryPairs b.Pairs b.QueryIds else [] }
    blobsAfter := outs.map (fun o => o.blob)
    manager := rec1.2 }

/-- The trailing validations of `Finish` in source order: weights first
(line 304), then the constant-target check (lines 307-310, which tests
`IsConstant(Pairs)`, not emptiness of the pair list). -/
def finishValidate (b : TDataProviderBuilder) (weights : List Int)
    (targets : List Int) : Except TError Unit :=
  match validateWeights weights with
  | .error e => .error e
  | .ok _ =>
      if isConstant targets && isConstant b.Pairs then .error .constantTargetNoPairs
      else .ok ()

/-- `TDataProviderBuilder::Finish`: fail when already finished, require
query ids when pairs were supplied, assemble the dataset, then run the
weight and constant-target validations. -/
def finish (b : TDataProviderBuilder) (mgr : TBinarizedFeaturesManager) :
    Except TError TFinishOut :=
  if b.IsDone then .error .cantFinishTwice
  else if (¬ b.Pairs = []) ∧ ¬ hasQueryIds b.QueryIds = true then
    .error .pairsWithoutQueryIds
  else
    match finishValidate b (finishBuild b mgr).provider.Weights
        (finishBuild b mgr).provider.Targets with
    | .error e => .error e
    | .ok _ => .ok (finishBuild b mgr)

/-- `resize(n, d)` on a vector: truncate or pad with `d`. -/
def resizeD {α : Type} (l : List α) (n : Nat) (d : α) : List α :=
  l.take n ++ List.replicate (n - l.length) d

/-- The loop of `StartNextBlock` that fills every slot from the cursor on
with its own row index. -/
def fillIdxFrom (c : Nat) : Nat → List Nat → List Nat
  | _, [] => []
  | i, v :: vs => (if c ≤ i then i else v) :: fillIdxFrom c (i + 1) vs

/-- `TDataProviderBuilder::StartNextBlock` (source lines 54-80): grow all
per-document arrays, default-filling weights to 1, query ids and subgroup
ids to the row index, and grow every non-ignored feature blob. -/
def startNextBlock (b : TDataProviderBuilder) (blockSize : Nat) : TDataProviderBuilder :=
  let cursor := b.Targets.length
  let newDataSize := cursor + blockSize
  { b with
    Targets := resizeD b.Targets newDataSize 0
    Weights := resizeD b.Weights newDataSize 1
    QueryIds := fillIdxFrom cursor 0 (resizeD b.QueryIds newDataSize 0)
    SubgroupIds := fillIdxFrom cursor 0 (resizeD b.SubgroupIds newDataSize 0)
    Timestamp := resizeD b.Timestamp newDataSize 0
    FeatureBlobs :=
      (List.range b.FeatureBlobs.length).map
        (fun fid =>
          if b.IgnoreFeatures.contains fid then b.FeatureBlobs.getD fid []
          else resizeD (b.FeatureBlobs.getD fid []) newDataSize 0) }

/-- Length consistency of the per-document arrays, as established by
`Start`/`StartNextBlock`. -/
def TDataProviderBuilder.WellFormed (b : TDataProviderBuilder) : Prop :=
  b.Weights.length = b.Targets.length ∧
  b.QueryIds.length = b.Targets.length ∧
  b.SubgroupIds.length = b.Targets.length ∧
  b.Timestamp.length = b.Targets.length ∧
  ∀ blob ∈ b.FeatureBlobs, blob = [] ∨ blob.length = b.Targets.length

instance (b : TDataProviderBuilder) : Decidable b.WellFormed := by
  unfold TDataProviderBuilder.WellFormed
  infer_instance

/-! ### List helper lemmas -/

theorem map_getD_range {α : Type} (l : List α) (d : α) :
    (List.range l.length).map (fun i => l.getD i d) = l := by
  induction l with
  | nil => rfl
  | cons x xs ih =>
      simp only [List.length_cons, List.range_succ_eq_map, List.map_cons, List.map_map]
      refine congrArg (x :: ·) ?_
      have : ((fun i => (x :: xs).getD i d) ∘ (· + 1)) = fun i => xs.getD i d := by
        funext i
        simp [List.getD_cons_succ]
      rw [this, ih]

theorem makeOrderedLine_perm {α : Type} (l : List α) (d : α) (order : List Nat)
    (h : List.Perm order (List.range l.length)) :
    List.Perm (makeOrderedLine l order d) l := by
  unfold makeOrderedLine
  have h1 := h.map (fun i => l.getD i d)
  rw [map_getD_range] at h1
  exact h1

theorem applyOrderOpt_perm {α : Type} (l : List α) (d : α) (order : List Nat)
    (h : List.Perm order (List.range l.length)) :
    List.Perm (applyOrderOpt order l d) l := by
  unfold applyOrderOpt
  by_cases hl : l.isEmpty
  · rw [if_pos hl]
    rw [List.isEmpty_iff] at hl
    rw [hl]
  · rw [if_neg hl]
    exact makeOrderedLine_perm l d order h

theorem distinctInOrder_mem (y : Nat) (l : List Nat) :
    y ∈ distinctInOrder l ↔ y ∈ l := by
  induction l with
  | nil => simp [distinctInOrder]
  | cons x xs ih =>
      simp only [distinctInOrder, List.mem_cons, List.mem_filter]
      constructor
      · rintro (rfl | ⟨hmem, _⟩)
        · exact Or.inl rfl
        · exact Or.inr (ih.mp hmem)
      · rintro (rfl | hmem)
        · exact Or.inl rfl
        · by_cases hyx : y = x
          · exact Or.inl hyx
          · exact Or.inr ⟨ih.mpr hmem, by simp [hyx]⟩

theorem distinctInOrder_nodup (l : List Nat) : (distinctInOrder l).Nodup := by
  induction l with
  | nil => simp [distinctInOrder]
  | cons x xs ih =>
      simp only [distinctInOrder]
      refine List.Nodup.cons ?_ (ih.filter _)
      intro hmem
      rcases List.mem_filter.mp hmem with ⟨_, hne⟩
      simp at hne

theorem groupConcat_congr (f g : Nat → List Nat) (ks : List Nat)
    (h : ∀ k ∈ ks, f k = g k) : groupConcat f ks = groupConcat g ks := by
  induction ks with
  | nil => rfl
  | cons k ks ih =>
      simp only [groupConcat]
      rw [h k (List.mem_cons_self k ks), ih (fun k' hk' => h k' (List.mem_cons_of_mem k hk'))]

theorem groupConcat_filter_perm (key : Nat → Nat) :
    ∀ ks : List Nat, ks.Nodup → ∀ l : List Nat, (∀ x ∈ l, key x ∈ ks) →
    List.Perm (groupConcat (fun k => l.filter (fun x => decide (key x = k))) ks) l := by
  intro ks
  induction ks with
  | nil =>
      intro _ l hcov
      have : l = [] :=
        List.eq_nil_iff_forall_not_mem.mpr
          (fun x hx => List.not_mem_nil (key x) (hcov x hx))
      rw [this]
      exact List.Perm.refl _
  | cons k ks ih =>
      intro hnd l hcov
      simp only [groupConcat]
      have hk_notin : k ∉ ks := (List.nodup_cons.mp hnd).1
      have hnd2 : ks.Nodup := (List.nodup_cons.mp hnd).2
      -- the tail groups of `l` are exactly the groups of `l` minus group `k`
      have hcong : ∀ k2 ∈ ks,
          l.filter (fun x => decide (key x = k2)) =
          (l.filter (fun x => !decide (key x = k))).filter
            (fun x => decide (key x = k2)) := by
        intro k2 hk2
        rw [List.filter_filter]
        refine (List.filter_congr (fun x _ => ?_)).symm
        by_cases hx : key x = k2
        · have hxk : ¬ key x = k := by
            intro hh
            exact hk_notin ((hh.symm.trans hx) ▸ hk2)
          simp [hx, hxk]
          intro hh
          exact hk_notin (hh ▸ hk2)
        · simp [hx]
      rw [groupConcat_congr _ _ ks hcong]
      have hcov2 : ∀ x ∈ l.filter (fun x => !decide (key x = k)), key x ∈ ks := by
        intro x hx
        rcases List.mem_filter.mp hx with ⟨hxl, hne⟩
        rcases List.mem_cons.mp (hcov x hxl) with h | h
        · simp [h] at hne
        · exact h
      have hperm2 := ih hnd2 (l.filter (fun x => !decide (key x = k))) hcov2
      exact ((List.Perm.refl _).append hperm2).trans
        (List.filter_append_perm (fun x => decide (key x = k)) l)

/-! ### Ordering-engine lemmas -/

theorem getD_mem_of_lt {α : Type} (l : List α) (i : Nat) (d : α) (h : i < l.length) :
    l.getD i d ∈ l := by
  rw [List.getD_eq_getElem?_getD, List.getElem?_eq_getElem h]
  exact List.getElem_mem h

theorem shuffleModel_perm (seed n : Nat) :
    List.Perm (shuffleModel seed n) (List.range n) :=
  List.perm_insertionSort (shuffleRel seed) (List.range n)

theorem createOrderByKey_perm (key : List Nat) :
    List.Perm (createOrderByKey key) (List.range key.length) :=
  List.perm_insertionSort (keyRel key) (List.range key.length)

theorem createOrderByKey_sorted (key : List Nat) :
    List.Sorted (keyRel key) (createOrderByKey key) :=
  List.sorted_insertionSort (keyRel key) (List.range key.length)

theorem queryConsistentShuffle_perm (seed : Nat) (qids : List Nat) :
    List.Perm (queryConsistentShuffle seed qids) (List.range qids.length) := by
  unfold queryConsistentShuffle
  have hkeysPerm : List.Perm (shuffleList seed (distinctInOrder qids)) (distinctInOrder qids) :=
    List.perm_insertionSort _ _
  refine groupConcat_filter_perm (fun i => qids.getD i 0) _ ?_ _ ?_
  · exact hkeysPerm.symm.nodup (distinctInOrder_nodup qids)
  · intro x hx
    rw [hkeysPerm.mem_iff, distinctInOrder_mem]
    exact getD_mem_of_lt qids x 0 (List.mem_range.mp hx)

theorem documentOrder_perm (b : TDataProviderBuilder) (h : b.WellFormed) :
    List.Perm (documentOrder b) (List.range b.Targets.length) := by
  obtain ⟨_, hq, _, ht, _⟩ := h
  unfold documentOrder
  by_cases hts : areEqualTo b.Timestamp 0
  · rw [if_neg (by simp [hts])]
    by_cases hsh : effectiveShuffle b = true
    · rw [if_pos hsh]
      by_cases hhq : hasQueryIds b.QueryIds = true
      · rw [if_pos hhq, ← hq]
        exact queryConsistentShuffle_perm b.Seed b.QueryIds
      · rw [if_neg hhq]
        exact shuffleModel_perm b.Seed b.Targets.length
    · rw [if_neg hsh]
  · rw [if_pos (by simp [hts]), ← ht]
    exact createOrderByKey_perm b.Timestamp

theorem documentOrder_identity (b : TDataProviderBuilder)
    (hts : areEqualTo b.Timestamp 0 = true) (hsh : b.ShuffleFlag = false) :
    documentOrder b = List.range b.Targets.length := by
  unfold documentOrder
  simp [hts, effectiveShuffle, hsh]

/-! ### Validation lemmas -/

theorem isConstant_iff {α : Type} [DecidableEq α] (l : List α) :
    isConstant l = true ↔ ∀ x ∈ l, ∀ y ∈ l, x = y := by
  cases l with
  | nil => simp [isConstant]
  | cons a as =>
      simp only [isConstant, List.all_eq_true, decide_eq_true_eq]
      constructor
      · intro h x hx y hy
        rw [h x hx, h y hy]
      · intro h x hx
        exact h x hx a (List.mem_cons_self a as)

theorem isConstant_of_perm {α : Type} [DecidableEq α] (l l2 : List α)
    (hp : List.Perm l l2) : isConstant l = isConstant l2 := by
  by_cases h : isConstant l2 = true
  · rw [h]
    rw [isConstant_iff] at h ⊢
    intro x hx y hy
    exact h x (hp.mem_iff.mp hx) y (hp.mem_iff.mp hy)
  · rw [Bool.eq_false_iff.mpr h, Bool.eq_false_iff]
    intro hc
    apply h
    rw [isConstant_iff] at hc ⊢
    intro x hx y hy
    exact hc x (hp.mem_iff.mpr hx) y (hp.mem_iff.mpr hy)

theorem validateWeightsLoop_neg (ws : List Int) :
    ∀ flag : Bool, (∃ w ∈ ws, w < 0) →
    validateWeightsLoop ws flag = Except.error TError.weightsNegative := by
  induction ws with
  | nil => intro flag h; simp at h
  | cons w ws ih =>
      intro flag h
      simp only [validateWeightsLoop]
      by_cases hw : w < 0
      · rw [if_pos hw]
      · rw [if_neg hw]
        apply ih
        rcases h with ⟨v, hv, hvneg⟩
        rcases List.mem_cons.mp hv with rfl | hvmem
        · exact absurd hvneg hw
        · exact ⟨v, hvmem, hvneg⟩

theorem validateWeightsLoop_allZero (ws : List Int) :
    (∀ w ∈ ws, w = 0) →
    validateWeightsLoop ws false = Except.error TError.allWeightsZero := by
  induction ws with
  | nil => intro _; rfl
  | cons w ws ih =>
      intro h
      have hw : w = 0 := h w (List.mem_cons_self w ws)
      simp only [validateWeightsLoop, hw]
      norm_num
      exact ih (fun v hv => h v (List.mem_cons_of_mem w hv))

theorem validateWeightsLoop_ok_of_flag (ws : List Int) :
    (∀ w ∈ ws, 0 ≤ w) → validateWeightsLoop ws true = Except.ok () := by
  induction ws with
  | nil => intro _; rfl
  | cons w ws ih =>
      intro h
      have hw : ¬ w < 0 := not_lt.mpr (h w (List.mem_cons_self w ws))
      simp only [validateWeightsLoop, if_neg hw, Bool.true_or]
      exact ih (fun v hv => h v (List.mem_cons_of_mem w hv))

theorem validateWeightsLoop_ok (ws : List Int) :
    ∀ flag : Bool, (∀ w ∈ ws, 0 ≤ w) → (∃ w ∈ ws, ¬ w = 0) →
    validateWeightsLoop ws flag = Except.ok () := by
  induction ws with
  | nil => intro flag _ h; simp at h
  | cons w ws ih =>
      intro flag hnn h
      have hw : ¬ w < 0 := not_lt.mpr (hnn w (List.mem_cons_self w ws))
      simp only [validateWeightsLoop, if_neg hw]
      by_cases hwz : w = 0
      · rcases h with ⟨v, hv, hvne⟩
        rcases List.mem_cons.mp hv with rfl | hvmem
        · exact absurd hwz hvne
        · exact ih _ (fun u hu => hnn u (List.mem_cons_of_mem w hu)) ⟨v, hvmem, hvne⟩
      · have : (flag || decide (¬ w = 0)) = true := by simp [hwz]
        rw [this]
        exact validateWeightsLoop_ok_of_flag ws (fun u hu => hnn u (List.mem_cons_of_mem w hu))

theorem validateWeights_neg (ws : List Int) (h : ∃ w ∈ ws, w < 0) :
    validateWeights ws = Except.error TError.weightsNegative :=
  validateWeightsLoop_neg ws false h

theorem validateWeights_allZero (ws : List Int) (h : ∀ w ∈ ws, w = 0) :
    validateWeights ws = Except.error TError.allWeightsZero :=
  validateWeightsLoop_allZero ws h

theorem validateWeights_ok (ws : List Int) (h1 : ∀ w ∈ ws, 0 ≤ w)
    (h2 : ∃ w ∈ ws, ¬ w = 0) : validateWeights ws = Except.ok () :=
  validateWeightsLoop_ok ws false h1 h2

theorem validateWeightsLoop_error_cases (ws : List Int) :
    ∀ flag e, validateWeightsLoop ws flag = Except.error e →
    e = TError.weightsNegative ∨ e = TError.allWeightsZero := by
  induction ws with
  | nil =>
      intro flag e h
      cases flag with
      | true => simp [validateWeightsLoop] at h
      | false =>
          simp only [validateWeightsLoop, Bool.false_eq_true, if_false] at h
          injection h with h
          exact Or.inr h.symm
  | cons w ws ih =>
      intro flag e h
      simp only [validateWeightsLoop] at h
      by_cases hw : w < 0
      · rw [if_pos hw] at h
        injection h with h
        exact Or.inl h.symm
      · rw [if_neg hw] at h
        exact ih _ e h

/-! ### Finish-pipeline lemmas -/

theorem orderedWeights_perm (b : TDataProviderBuilder) (h : b.WellFormed) :
    List.Perm (orderedWeights b) b.Weights := by
  unfold orderedWeights
  by_cases hap : doApplyOrder b = true
  · rw [if_pos hap]
    refine applyOrderOpt_perm b.Weights 0 (documentOrder b) ?_
    rw [h.1]
    exact documentOrder_perm b h
  · rw [if_neg hap]

theorem orderedTargets_perm (b : TDataProviderBuilder) (h : b.WellFormed) :
    List.Perm (orderedTargets b) b.Targets := by
  unfold orderedTargets
  by_cases hap : doApplyOrder b = true
  · rw [if_pos hap]
    exact applyOrderOpt_perm b.Targets 0 (documentOrder b) (documentOrder_perm b h)
  · rw [if_neg hap]

theorem finish_eq (b : TDataProviderBuilder) (mgr : TBinarizedFeaturesManager)
    (h1 : b.IsDone = false)
    (h2 : ¬((¬ b.Pairs = []) ∧ ¬ hasQueryIds b.QueryIds = true)) :
    finish b mgr =
      match finishValidate b (orderedWeights b) (orderedTargets b) with
      | .error e => .error e
      | .ok _ => .ok (finishBuild b mgr) := by
  unfold finish
  rw [if_neg (by simp [h1]), if_neg h2]
  rfl

theorem finish_pairs_error (b : TDataProviderBuilder) (mgr : TBinarizedFeaturesManager)
    (h1 : b.IsDone = false) (hp : ¬ b.Pairs = [])
    (hq : hasQueryIds b.QueryIds = false) :
    finish b mgr = Except.error TError.pairsWithoutQueryIds := by
  unfold finish
  rw [if_neg (by simp [h1]), if_pos (by simp [hp, hq])]

theorem finishValidate_ok (b : TDataProviderBuilder) (weights targets : List Int)
    (hw : validateWeights weights = Except.ok ())
    (hc : ¬(isConstant targets = true ∧ isConstant b.Pairs = true)) :
    finishValidate b weights targets = Except.ok () := by
  unfold finishValidate
  rw [hw]
  rw [if_neg (by simp only [Bool.and_eq_true]; exact hc)]

theorem finishValidate_error_cases (b : TDataProviderBuilder)
    (weights targets : List Int) (e : TError)
    (h : finishValidate b weights targets = Except.error e) :
    e = TError.weightsNegative ∨ e = TError.allWeightsZero ∨
    e = TError.constantTargetNoPairs := by
  unfold finishValidate at h
  cases hv : validateWeights weights with
  | error e2 =>
      rw [hv] at h
      injection h with h
      subst h
      rcases validateWeightsLoop_error_cases weights false e2 hv with h2 | h2
      · exact Or.inl h2
      · exact Or.inr (Or.inl h2)
  | ok u =>
      rw [hv] at h
      by_cases hc : (isConstant targets && isConstant b.Pairs) = true
      · rw [if_pos hc] at h
        injection h with h
        exact Or.inr (Or.inr h.symm)
      · rw [if_neg hc] at h
        cases h

theorem hasQueryIds_false_iff (qids : List Nat) :
    hasQueryIds qids = false ↔ ∀ i < qids.length, qids.getD i 0 = i := by
  unfold hasQueryIds
  rw [← Bool.not_eq_true, List.any_eq_true]
  simp only [List.mem_range, decide_eq_true_eq, not_exists, not_and, not_not]

/-! ### Indexing helper lemmas -/

theorem getD_eq_getElem {α : Type} (l : List α) (i : Nat) (d : α) (h : i < l.length) :
    l.getD i d = l.get ⟨i, h⟩ := by
  rw [List.getD_eq_getElem?_getD, List.getElem?_eq_getElem h]
  rfl

theorem getD_map_lt {α β : Type} (f : α → β) (l : List α) (i : Nat) (d : β) (d2 : α)
    (h : i < l.length) : (l.map f).getD i d = f (l.getD i d2) := by
  rw [getD_eq_getElem _ _ _ (by simpa using h), getD_eq_getElem _ _ _ h]
  simp

theorem getD_range_map {β : Type} (g : Nat → β) (F fid : Nat) (d : β) (h : fid < F) :
    ((List.range F).map g).getD fid d = g fid := by
  rw [getD_map_lt g (List.range F) fid d 0 (by simpa using h)]
  congr 1
  rw [getD_eq_getElem _ _ _ (by simpa using h)]
  simp

theorem mem_makeOrderedLine {α : Type} (source : List α) (order : List Nat) (d : α)
    (hidx : ∀ i ∈ order, i < source.length) :
    ∀ x ∈ makeOrderedLine source order d, x ∈ source := by
  intro x hx
  rcases List.mem_map.mp hx with ⟨i, hi, rfl⟩
  exact getD_mem_of_lt source i d (hidx i hi)

/-! ### Degenerate-feature lemmas -/

theorem distinctInOrderInt_mem (y : Int) (l : List Int) :
    y ∈ distinctInOrderInt l ↔ y ∈ l := by
  induction l with
  | nil => simp [distinctInOrderInt]
  | cons x xs ih =>
      simp only [distinctInOrderInt, List.mem_cons, List.mem_filter]
      constructor
      · rintro (rfl | ⟨hmem, _⟩)
        · exact Or.inl rfl
        · exact Or.inr (ih.mp hmem)
      · rintro (rfl | hmem)
        · exact Or.inl rfl
        · by_cases hyx : y = x
          · exact Or.inl hyx
          · exact Or.inr ⟨ih.mpr hmem, by simp [hyx]⟩

theorem distinctInOrderInt_nodup (l : List Int) : (distinctInOrderInt l).Nodup := by
  induction l with
  | nil => simp [distinctInOrderInt]
  | cons x xs ih =>
      simp only [distinctInOrderInt]
      refine List.Nodup.cons ?_ (ih.filter _)
      intro hmem
      rcases List.mem_filter.mp hmem with ⟨_, hne⟩
      simp at hne

theorem dropLast_of_length_le_one {α : Type} (l : List α) (h : l.length ≤ 1) :
    l.dropLast = [] := by
  cases l with
  | nil => rfl
  | cons x xs =>
      cases xs with
      | nil => rfl
      | cons y ys => simp at h

theorem buildBorders_const (v : List Int) (h : ∀ x ∈ v, ∀ y ∈ v, x = y) :
    buildBorders v = [] := by
  unfold buildBorders
  apply dropLast_of_length_le_one
  rw [(List.perm_insertionSort _ (distinctInOrderInt v)).length_eq]
  rcases hd : distinctInOrderInt v with _ | ⟨a, as⟩
  · simp
  · rcases as with _ | ⟨b, bs⟩
    · simp
    · exfalso
      have hnd := distinctInOrderInt_nodup v
      rw [hd] at hnd
      have hab : ¬ a = b := by
        intro hh
        rw [hh] at hnd
        simp at hnd
      apply hab
      have ha : a ∈ v := (distinctInOrderInt_mem a v).mp (by rw [hd]; simp)
      have hb : b ∈ v := (distinctInOrderInt_mem b v).mp (by rw [hd]; simp)
      exact h a ha b hb

/-! ### Per-feature compile lemmas -/

theorem compileFeature_column_or_blob (isTest : Bool) (order : List Nat)
    (ftype : EFeatureValuesType) (fid : Nat) (name : String) (s : TFeatureSlice) :
    (compileFeature isTest order ftype fid name s).column = none ∨
    (compileFeature isTest order ftype fid name s).blob = [] := by
  unfold compileFeature emptyOut
  repeat' split
  all_goals
    (by_cases hd : floatEffectiveBorders isTest s (makeOrderedLine s.blob order 0) = [] <;>
      simp [hd])

theorem compileFeature_column_fid (isTest : Bool) (order : List Nat)
    (ftype : EFeatureValuesType) (fid : Nat) (name : String) (s : TFeatureSlice) :
    ∀ c : TFeatureColumn,
    (compileFeature isTest order ftype fid name s).column = some c →
    c.featureId = fid := by
  unfold compileFeature emptyOut
  intro c h
  repeat' split at h
  all_goals
    (by_cases hd : floatEffectiveBorders isTest s (makeOrderedLine s.blob order 0) = [] <;>
      simp_all [TFeatureColumn.featureId])
  all_goals (first | (rw [← h]; try rfl) | (rw [← h.2]; try rfl))

theorem compileFeature_cat_skip (order : List Nat) (fid : Nat) (name : String)
    (s : TFeatureSlice) (hblob : ¬ s.blob = []) (hseen : s.seenCats = []) :
    compileFeature true order EFeatureValuesType.Categorical fid name s =
      { column := none, binarized := none, blob := [], borders := s.borders,
        nanMode := s.nanMode, seenCats := s.seenCats,
        cachedNanMode := s.cachedNanMode } := by
  unfold compileFeature
  rw [if_neg hblob]
  simp [hseen, emptyOut]

theorem compileFeature_float_degenerate (isTest : Bool) (order : List Nat)
    (fid : Nat) (name : String) (s : TFeatureSlice) (hblob : ¬ s.blob = [])
    (hcb : s.cachedBorders = none) (hb : s.borders = [])
    (hbuild : buildBorders (makeOrderedLine s.blob order 0) = []) :
    compileFeature isTest order EFeatureValuesType.Float fid name s =
      { column := none, binarized := none, blob := s.blob, borders := [],
        nanMode := getOrComputeNanMode s.cachedNanMode, seenCats := s.seenCats,
        cachedNanMode := some (getOrComputeNanMode s.cachedNanMode) } := by
  have heff : floatEffectiveBorders isTest s (makeOrderedLine s.blob order 0) = [] := by
    unfold floatEffectiveBorders
    simp only [hcb, Option.getD_none, hb, hbuild]
    cases isTest <;> simp [hbuild]
  unfold compileFeature
  rw [if_neg hblob]
  simp only [heff, if_pos]

theorem compileFeature_binfloat_degenerate (isTest : Bool) (order : List Nat)
    (fid : Nat) (name : String) (s : TFeatureSlice) (hb : s.borders = []) :
    (compileFeature isTest order EFeatureValuesType.BinarizedFloat fid name s).column =
      none := by
  unfold compileFeature emptyOut
  split
  · rfl
  · simp [hb]

/-! ### Reconciliation lemmas -/

theorem findVal_append_some {β : Type} (l t : List (Nat × β)) (k : Nat) (v : β)
    (h : findVal l k = some v) : findVal (l ++ t) k = some v := by
  induction l with
  | nil => simp [findVal] at h
  | cons p rest ih =>
      rcases p with ⟨k2, v2⟩
      simp only [findVal, List.cons_append] at h ⊢
      by_cases hk : k2 = k
      · rwa [if_pos hk] at h ⊢
      · rw [if_neg hk] at h ⊢
        exact ih h

theorem reconcileStep_preserves (types : List EFeatureValuesType)
    (columns : List (Option TFeatureColumn)) (bordersArr : List (List Int))
    (acc : List TFeatureColumn × TBinarizedFeaturesManager) (fid k : Nat)
    (v : List Int) (h : findVal acc.2.FloatBordersCache k = some v) :
    findVal (reconcileStep types columns bordersArr acc fid).2.FloatBordersCache k =
      some v := by
  unfold reconcileStep
  split
  · split
    · exact findVal_append_some _ _ k v h
    · exact findVal_append_some _ _ k v h
  · split
    · exact h
    · exact h

theorem foldl_reconcileStep_preserves (types : List EFeatureValuesType)
    (columns : List (Option TFeatureColumn)) (bordersArr : List (List Int)) :
    ∀ (fids : List Nat) (acc : List TFeatureColumn × TBinarizedFeaturesManager)
      (k : Nat) (v : List Int),
    findVal acc.2.FloatBordersCache k = some v →
    findVal (fids.foldl (reconcileStep types columns bordersArr) acc).2.FloatBordersCache
      k = some v := by
  intro fids
  induction fids with
  | nil => intro acc k v h; exact h
  | cons fid fids ih =>
      intro acc k v h
      simp only [List.foldl_cons]
      exact ih _ k v (reconcileStep_preserves types columns bordersArr acc fid k v h)

theorem reconcile_preserves (types : List EFeatureValuesType)
    (columns : List (Option TFeatureColumn)) (bordersArr : List (List Int))
    (mgr : TBinarizedFeaturesManager) (k : Nat) (v : List Int)
    (h : findVal mgr.FloatBordersCache k = some v) :
    findVal (reconcile types columns bordersArr mgr).2.FloatBordersCache k = some v :=
  foldl_reconcileStep_preserves types columns bordersArr _ ([], mgr) k v h

theorem foldl_reconcileStep_fst_mem (types : List EFeatureValuesType)
    (columns : List (Option TFeatureColumn)) (bordersArr : List (List Int)) :
    ∀ (fids : List Nat) (acc : List TFeatureColumn × TBinarizedFeaturesManager)
      (c : TFeatureColumn),
    c ∈ (fids.foldl (reconcileStep types columns bordersArr) acc).1 →
    c ∈ acc.1 ∨ ∃ fid ∈ fids, columns.getD fid none = some c := by
  intro fids
  induction fids with
  | nil => intro acc c h; exact Or.inl h
  | cons fid fids ih =>
      intro acc c h
      simp only [List.foldl_cons] at h
      rcases ih _ c h with hacc | ⟨fid2, hfid2, hcol⟩
      · unfold reconcileStep at hacc
        rcases hcol2 : columns.getD fid none with _ | c2
        · rw [hcol2] at hacc
          exact Or.inl hacc
        · rw [hcol2] at hacc
          simp only at hacc
          rcases List.mem_append.mp hacc with hacc2 | hacc2
          · exact Or.inl hacc2
          · rcases List.mem_singleton.mp hacc2 with rfl
            exact Or.inr ⟨fid, List.mem_cons_self fid fids, hcol2⟩
      · exact Or.inr ⟨fid2, List.mem_cons_of_mem fid hfid2, hcol⟩

theorem reconcile_fst_mem (types : List EFeatureValuesType)
    (columns : List (Option TFeatureColumn)) (bordersArr : List (List Int))
    (mgr : TBinarizedFeaturesManager) (c : TFeatureColumn)
    (h : c ∈ (reconcile types columns bordersArr mgr).1) :
    ∃ fid ∈ List.range columns.length, columns.getD fid none = some c := by
  rcases foldl_reconcileStep_fst_mem types columns bordersArr _ ([], mgr) c h with
    hnil | hex
  · simp at hnil
  · exact hex

/-! ### Concrete instances used by witnesses and counterexamples -/

/-- The empty shared metadata store. -/
def mgr0 : TBinarizedFeaturesManager := { NanModeCache := [], FloatBordersCache := [] }

/-- A four-document builder with default-filled meta columns and no
features, specialised by the concrete scenarios below. -/
def builder0 : TDataProviderBuilder :=
  { Targets := [0, 1, 2, 3], Weights := [1, 1, 1, 1], QueryIds := [0, 1, 2, 3],
    SubgroupIds := [0, 1, 2, 3], Timestamp := [0, 0, 0, 0], FeatureBlobs := [],
    FeatureTypes := [], Borders := [], NanModes := [], CatFeaturesHash := [],
    FeatureIds := [], IgnoreFeatures := [], Pairs := [], Seed := 0,
    ShuffleFlag := false, IsTest := false, IsDone := false }

/-- Constant targets, valid weights, explicit groups, and exactly one
pair: the pair list is non-empty yet `IsConstant(Pairs)` holds. -/
def c1builder : TDataProviderBuilder :=
  { builder0 with
    Targets := [1, 1, 1, 1]
    QueryIds := [0, 0, 1, 1]
    Pairs := [⟨0, 1, 1⟩] }

/-- C1: targets `[1,1,1,1]` with the single supplied pair `(0, 1)` and
group ids present: `finish()` still raises the constant-target error
("... and there are no pairs"), because the source guards the check with
`IsConstant(Pairs)` — true for any list of identical pairs — instead of
`Pairs.empty()`.  This contradicts both the error's own message and the
spec's scenario, which promise success for any non-empty pair list. -/
theorem c1_constant_target_single_pair :
    (¬ c1builder.Pairs = []) ∧ hasQueryIds c1builder.QueryIds = true ∧
    isConstant c1builder.Targets = true ∧
    finish c1builder mgr0 = Except.error TError.constantTargetNoPairs := by
  decide

/-- C2: when some timestamp is non-zero, the Document Order is the stable
ascending sort of row indices by timestamp — for every shuffle flag and
seed the order equals `createOrderByKey` (so shuffling has no effect), it
is sorted by the stable-ascending comparison (strictly increasing
timestamps, ties in original index order), and it is a permutation of the
row-index range. -/
theorem c2_timestamp_order (b : TDataProviderBuilder) (s : Bool) (seed : Nat)
    (h : b.WellFormed) (hts : ¬ areEqualTo b.Timestamp 0 = true) :
    documentOrder { b with ShuffleFlag := s, Seed := seed } =
      createOrderByKey b.Timestamp ∧
    List.Sorted (keyRel b.Timestamp) (createOrderByKey b.Timestamp) ∧
    List.Perm (createOrderByKey b.Timestamp) (List.range b.Targets.length) := by
  refine ⟨?_, createOrderByKey_sorted b.Timestamp, ?_⟩
  · unfold documentOrder
    rw [if_pos (by simpa using hts)]
  · rw [← h.2.2.2.1]
    exact createOrderByKey_perm b.Timestamp

/-- A builder with one non-zero timestamp column. -/
def c2builder : TDataProviderBuilder := { builder0 with Timestamp := [5, 1, 1, 0] }

theorem c2_witness :
    documentOrder { c2builder with ShuffleFlag := true, Seed := 7 } =
      createOrderByKey c2builder.Timestamp ∧
    List.Sorted (keyRel c2builder.Timestamp) (createOrderByKey c2builder.Timestamp) ∧
    List.Perm (createOrderByKey c2builder.Timestamp)
      (List.range c2builder.Targets.length) :=
  c2_timestamp_order c2builder true 7 (by decide) (by decide)

/-- C3: for every builder, the Document Order is a permutation of
`[0, documentCount)`; with all-zero timestamps and no shuffle request it
is the identity; and the order stored in the dataset produced by a
successful `finish()` is exactly this Document Order. -/
theorem c3_order_bijection (b : TDataProviderBuilder)
    (mgr : TBinarizedFeaturesManager) (h : b.WellFormed) :
    List.Perm (documentOrder b) (List.range b.Targets.length) ∧
    (areEqualTo b.Timestamp 0 = true → b.ShuffleFlag = false →
      documentOrder b = List.range b.Targets.length) ∧
    (∀ d, finish b mgr = Except.ok d → d.provider.Order = documentOrder b) := by
  refine ⟨documentOrder_perm b h, documentOrder_identity b, ?_⟩
  intro d hd
  unfold finish at hd
  split at hd
  · exact Except.noConfusion hd
  · split at hd
    · exact Except.noConfusion hd
    · split at hd
      · exact Except.noConfusion hd
      · injection hd with hd
        rw [← hd]
        rfl

/-- A builder with groups and a requested shuffle. -/
def c3builder : TDataProviderBuilder :=
  { builder0 with QueryIds := [7, 7, 3, 3], ShuffleFlag := true, Seed := 11 }

theorem c3_witness :
    List.Perm (documentOrder c3builder) (List.range c3builder.Targets.length) ∧
    (finishBuild c3builder mgr0).provider.Order = documentOrder c3builder :=
  ⟨(c3_order_bijection c3builder mgr0 (by decide)).1,
   (c3_order_bijection c3builder mgr0 (by decide)).2.2 (finishBuild c3builder mgr0)
     (by decide)⟩

/-- A successful `finish` returns exactly the assembled `finishBuild`. -/
theorem finish_ok_eq (b : TDataProviderBuilder) (mgr : TBinarizedFeaturesManager)
    (d : TFinishOut) (hd : finish b mgr = Except.ok d) : d = finishBuild b mgr := by
  unfold finish at hd
  split at hd
  · exact Except.noConfusion hd
  · split at hd
    · exact Except.noConfusion hd
    · split at hd
      · exact Except.noConfusion hd
      · injection hd with hd
        exact hd.symm

theorem getD_set_ne {α : Type} (l : List α) (i j : Nat) (x : α) (d : α)
    (h : ¬ i = j) : (l.set i x).getD j d = l.getD j d := by
  rw [List.getD_eq_getElem?_getD, List.getD_eq_getElem?_getD, List.getElem?_set_ne h]

/-- C5: with the weight check reachable (not yet finished, pairs matched
by group ids), all-zero weights make `finish()` fail with the
"all weights are zero" error, a negative weight makes it fail with the
"weights can't be negative" error, and non-negative weights with some
non-zero one pass the weight validation (the exact message strings of the
two errors are also pinned). -/
theorem c5_weight_validation (b : TDataProviderBuilder)
    (mgr : TBinarizedFeaturesManager) (h : b.WellFormed) (h1 : b.IsDone = false)
    (h2 : b.Pairs = [] ∨ hasQueryIds b.QueryIds = true) :
    ((∀ w ∈ b.Weights, w = 0) → finish b mgr = Except.error TError.allWeightsZero) ∧
    ((∃ w ∈ b.Weights, w < 0) → finish b mgr = Except.error TError.weightsNegative) ∧
    ((∀ w ∈ b.Weights, 0 ≤ w) → (∃ w ∈ b.Weights, ¬ w = 0) →
      validateWeights (finishBuild b mgr).provider.Weights = Except.ok () ∧
      ¬ finish b mgr = Except.error TError.weightsNegative ∧
      ¬ finish b mgr = Except.error TError.allWeightsZero) ∧
    TError.allWeightsZero.message = "Error: all weights are zero" ∧
    TError.weightsNegative.message = "Weights can't be negative" := by
  have hguard : ¬((¬ b.Pairs = []) ∧ ¬ hasQueryIds b.QueryIds = true) := by
    rcases h2 with h2 | h2 <;> simp [h2]
  have heq := finish_eq b mgr h1 hguard
  have hperm := orderedWeights_perm b h
  refine ⟨?_, ?_, ?_, rfl, rfl⟩
  · intro hz
    have hv : validateWeights (orderedWeights b) = Except.error TError.allWeightsZero :=
      validateWeights_allZero _ (fun w hw => hz w (hperm.mem_iff.mp hw))
    rw [heq]
    unfold finishValidate
    rw [hv]
  · intro hneg
    rcases hneg with ⟨w, hw, hwneg⟩
    have hv : validateWeights (orderedWeights b) = Except.error TError.weightsNegative :=
      validateWeights_neg _ ⟨w, hperm.mem_iff.mpr hw, hwneg⟩
    rw [heq]
    unfold finishValidate
    rw [hv]
  · intro hnn hnz
    rcases hnz with ⟨w, hw, hwne⟩
    have hv : validateWeights (orderedWeights b) = Except.ok () :=
      validateWeights_ok _ (fun u hu => hnn u (hperm.mem_iff.mp hu))
        ⟨w, hperm.mem_iff.mpr hw, hwne⟩
    refine ⟨hv, ?_, ?_⟩ <;>
      (rw [heq]
       unfold finishValidate
       rw [hv]
       by_cases hc : (isConstant (orderedTargets b) && isConstant b.Pairs) = true)
    · rw [if_pos hc]
      simp
    · rw [if_neg hc]
      simp
    · rw [if_pos hc]
      simp
    · rw [if_neg hc]
      simp

/-- A builder whose weights are non-negative with some non-zero entry. -/
def c5builder : TDataProviderBuilder := { builder0 with Weights := [0, 0, 3, 0] }

theorem c5_witness :
    validateWeights (finishBuild c5builder mgr0).provider.Weights = Except.ok () ∧
    ¬ finish c5builder mgr0 = Except.error TError.weightsNegative ∧
    ¬ finish c5builder mgr0 = Except.error TError.allWeightsZero :=
  (c5_weight_validation c5builder mgr0 (by decide) (by decide) (by decide)).2.2.1
    (by decide) (by decide)

/-- C6: a non-empty pair list makes `finish()` fail with the fatal
pairs-need-query-ids error when group ids are absent; with group ids
present that error is never raised and a successful dataset carries the
per-group pair structures derived from the pairs and group ids. -/
theorem c6_pairs_require_group_ids (b : TDataProviderBuilder)
    (mgr : TBinarizedFeaturesManager) (h1 : b.IsDone = false)
    (hp : ¬ b.Pairs = []) :
    (hasQueryIds b.QueryIds = false →
      finish b mgr = Except.error TError.pairsWithoutQueryIds) ∧
    (hasQueryIds b.QueryIds = true →
      ¬ finish b mgr = Except.error TError.pairsWithoutQueryIds ∧
      ∀ d, finish b mgr = Except.ok d →
        d.provider.QueryPairs = fillQueryPairs b.Pairs b.QueryIds) := by
  constructor
  · intro hq
    exact finish_pairs_error b mgr h1 hp hq
  · intro hq
    have hguard : ¬((¬ b.Pairs = []) ∧ ¬ hasQueryIds b.QueryIds = true) := by
      simp [hq]
    have heq := finish_eq b mgr h1 hguard
    constructor
    · rw [heq]
      cases hv : finishValidate b (orderedWeights b) (orderedTargets b) with
      | error e =>
          rcases finishValidate_error_cases b _ _ e hv with he | he | he <;>
            (subst he; simp)
      | ok u => simp
    · intro d hd
      rw [finish_ok_eq b mgr d hd]
      show (if ¬ b.Pairs = [] then fillQueryPairs b.Pairs b.QueryIds else []) =
        fillQueryPairs b.Pairs b.QueryIds
      rw [if_pos hp]

/-- A builder with two groups and one pair. -/
def c6builder : TDataProviderBuilder :=
  { builder0 with
    QueryIds := [4, 4, 9, 9]
    Pairs := [⟨0, 1, 1⟩] }

theorem c6_witness :
    (¬ finish c6builder mgr0 = Except.error TError.pairsWithoutQueryIds) ∧
    (finishBuild c6builder mgr0).provider.QueryPairs =
      fillQueryPairs c6builder.Pairs c6builder.QueryIds ∧
    finish { c6builder with QueryIds := [0, 1, 2, 3] } mgr0 =
      Except.error TError.pairsWithoutQueryIds :=
  ⟨((c6_pairs_require_group_ids c6builder mgr0 (by decide) (by decide)).2
      (by decide)).1,
   ((c6_pairs_require_group_ids c6builder mgr0 (by decide) (by decide)).2
      (by decide)).2 (finishBuild c6builder mgr0) (by decide),
   (c6_pairs_require_group_ids { c6builder with QueryIds := [0, 1, 2, 3] } mgr0
      (by decide) (by decide)).1 (by decide)⟩

/-- The builder before any ingestion: all per-document arrays empty. -/
def emptyBuilder : TDataProviderBuilder :=
  { builder0 with
    Targets := []
    Weights := []
    QueryIds := []
    SubgroupIds := []
    Timestamp := [] }

theorem fillIdxFrom_replicate (m : Nat) :
    ∀ j : Nat, fillIdxFrom 0 j (List.replicate m 0) = List.range' j m := by
  induction m with
  | zero => intro j; rfl
  | succ m ih =>
      intro j
      simp only [List.replicate_succ, fillIdxFrom, Nat.zero_le, if_pos,
        List.range'_succ _ _ 1]
      exact congrArg (j :: ·) (ih (j + 1))

/-- C10: group ids that all equal their own row index (the default fill of
`startNextBlock`, whose fresh blocks produce exactly that) are treated as
absent by `finish()`: `HasQueryIds` is false, the dataset's query-id
column comes out empty, a supplied pair list trips the group-id
requirement, and a requested shuffle falls into the ungrouped uniform
branch. -/
theorem c10_default_group_ids (b : TDataProviderBuilder)
    (mgr : TBinarizedFeaturesManager) (h1 : b.IsDone = false)
    (hdef : ∀ i < b.QueryIds.length, b.QueryIds.getD i 0 = i) :
    hasQueryIds b.QueryIds = false ∧
    (¬ b.Pairs = [] → finish b mgr = Except.error TError.pairsWithoutQueryIds) ∧
    (∀ d, finish b mgr = Except.ok d → d.provider.QueryIds = []) ∧
    (b.ShuffleFlag = true → areEqualTo b.Timestamp 0 = true →
      documentOrder b = shuffleModel b.Seed b.Targets.length) ∧
    (∀ k, (startNextBlock emptyBuilder k).QueryIds = List.range k) := by
  have hq : hasQueryIds b.QueryIds = false := (hasQueryIds_false_iff b.QueryIds).mpr hdef
  refine ⟨hq, ?_, ?_, ?_, ?_⟩
  · intro hp
    exact finish_pairs_error b mgr h1 hp hq
  · intro d hd
    rw [finish_ok_eq b mgr d hd]
    show finishQueryIds b = []
    unfold finishQueryIds
    simp [hq, applyOrderOpt]
  · intro hsh hts
    unfold documentOrder
    rw [if_neg (by simp [hts])]
    have heff : effectiveShuffle b = true := by simp [effectiveShuffle, hsh, hts]
    rw [if_pos heff, if_neg (by simp [hq])]
  · intro k
    show fillIdxFrom 0 0 (resizeD ([] : List Nat) (0 + k) 0) = List.range k
    unfold resizeD
    simp only [List.take_nil, List.length_nil, Nat.sub_zero, List.nil_append,
      Nat.zero_add]
    rw [fillIdxFrom_replicate k 0, List.range_eq_range' k]

/-- A builder with default-filled group ids, a shuffle request and a pair
list. -/
def c10builder : TDataProviderBuilder :=
  { builder0 with
    Pairs := [⟨2, 3, 1⟩]
    ShuffleFlag := true
    Seed := 3 }

theorem c10_witness :
    hasQueryIds c10builder.QueryIds = false ∧
    finish c10builder mgr0 = Except.error TError.pairsWithoutQueryIds ∧
    documentOrder c10builder = shuffleModel c10builder.Seed c10builder.Targets.length ∧
    (startNextBlock emptyBuilder 4).QueryIds = List.range 4 :=
  ⟨(c10_default_group_ids c10builder mgr0 (by decide) (by decide)).1,
   (c10_default_group_ids c10builder mgr0 (by decide) (by decide)).2.1 (by decide),
   (c10_default_group_ids c10builder mgr0 (by decide) (by decide)).2.2.2.1
     (by decide) (by decide),
   (c10_default_group_ids c10builder mgr0 (by decide) (by decide)).2.2.2.2 4⟩

/-- A non-empty categorical blob whose feature has no known categories. -/
def c4slice : TFeatureSlice :=
  { blob := [7, 7], borders := [], nanMode := ENanMode.Forbidden, seenCats := [],
    cachedNanMode := none, cachedBorders := none }

/-- C4 counterexample: a categorical feature compiled in test mode with
zero assigned codes and a non-empty blob is not binarized at all — the
compile step returns no binarized code sequence (and no column), refuting
"skips code assignment but still binarizes". -/
theorem c4_counterexample :
    (¬ c4slice.blob = []) ∧ c4slice.seenCats = [] ∧
    (compileFeature true [0, 1] EFeatureValuesType.Categorical 0 "0" c4slice).binarized
      = none ∧
    (compileFeature true [0, 1] EFeatureValuesType.Categorical 0 "0" c4slice).column
      = none := by
  decide

/-- C4 (amended): a categorical feature compiled in read-only/test mode
with zero assigned codes is skipped entirely — no code assignment, no
binarization, no compiled column — while its raw blob is still released
and the rest of its state is untouched. -/
theorem c4_test_mode_skip (order : List Nat) (fid : Nat) (name : String)
    (s : TFeatureSlice) (hblob : ¬ s.blob = []) (hseen : s.seenCats = []) :
    compileFeature true order EFeatureValuesType.Categorical fid name s =
      { column := none, binarized := none, blob := [], borders := s.borders,
        nanMode := s.nanMode, seenCats := s.seenCats,
        cachedNanMode := s.cachedNanMode } :=
  compileFeature_cat_skip order fid name s hblob hseen

theorem c4_witness :
    compileFeature true [0, 1] EFeatureValuesType.Categorical 3 "f3" c4slice =
      { column := none, binarized := none, blob := [], borders := c4slice.borders,
        nanMode := c4slice.nanMode, seenCats := c4slice.seenCats,
        cachedNanMode := c4slice.cachedNanMode } :=
  c4_test_mode_skip [0, 1] 3 "f3" c4slice (by decide) (by decide)

/-- C9: during the sequential reconciliation, borders already recorded in
the shared metadata store for a feature are never overwritten, and an
entry can change only for a feature that had none recorded before
(first-writer-wins). -/
theorem c9_first_writer_wins (types : List EFeatureValuesType)
    (columns : List (Option TFeatureColumn)) (bordersArr : List (List Int))
    (mgr : TBinarizedFeaturesManager) :
    (∀ k v, findVal mgr.FloatBordersCache k = some v →
      findVal (reconcile types columns bordersArr mgr).2.FloatBordersCache k =
        some v) ∧
    (∀ k,
      ¬ findVal (reconcile types columns bordersArr mgr).2.FloatBordersCache k =
          findVal mgr.FloatBordersCache k →
      findVal mgr.FloatBordersCache k = none) := by
  constructor
  · intro k v hv
    exact reconcile_preserves types columns bordersArr mgr k v hv
  · intro k hne
    cases hv : findVal mgr.FloatBordersCache k with
    | none => rfl
    | some v =>
        exact absurd
          ((reconcile_preserves types columns bordersArr mgr k v hv).trans hv.symm)
          hne

/-- A compiled float column for feature 0 used in the C9 scenario. -/
def c9column : TFeatureColumn :=
  TFeatureColumn.TBinarizedFloatValuesHolder 0 2 ENanMode.Forbidden [5] [0, 0] "0"

/-- A metadata store that already has borders `[5]` recorded for
feature 0. -/
def c9mgr : TBinarizedFeaturesManager :=
  { NanModeCache := [], FloatBordersCache := [(0, [5])] }

theorem c9_witness :
    findVal
      (reconcile [EFeatureValuesType.Float] [some c9column] [[3]] c9mgr).2.FloatBordersCache
      0 = some [5] :=
  (c9_first_writer_wins [EFeatureValuesType.Float] [some c9column] [[3]] c9mgr).1
    0 [5] (by decide)

/-- C8: in the compile phase, any feature whose compiled column is
produced has its raw blob released (swapped with an empty vector), so no
feature's data survives in both raw-blob and compiled form; the post-state
blobs recorded by `finish()` are exactly these per-feature blobs. -/
theorem c8_blob_released (b : TDataProviderBuilder)
    (mgr : TBinarizedFeaturesManager) (fid : Nat) :
    (¬ ((compilePhase b (documentOrder b) mgr).getD fid default).column = none →
      ((compilePhase b (documentOrder b) mgr).getD fid default).blob = []) ∧
    (¬ (¬ ((compilePhase b (documentOrder b) mgr).getD fid default).column = none ∧
        ¬ ((compilePhase b (documentOrder b) mgr).getD fid default).blob = [])) ∧
    (∀ d, finish b mgr = Except.ok d →
      d.blobsAfter = (compilePhase b (documentOrder b) mgr).map (fun o => o.blob)) := by
  have hcb : ((compilePhase b (documentOrder b) mgr).getD fid default).column = none ∨
      ((compilePhase b (documentOrder b) mgr).getD fid default).blob = [] := by
    by_cases hf : fid < b.FeatureBlobs.length
    · unfold compilePhase
      rw [getD_range_map _ _ _ _ hf]
      exact compileFeature_column_or_blob _ _ _ _ _ _
    · left
      unfold compilePhase
      rw [List.getD_eq_default _ _ (by simpa using Nat.le_of_not_lt hf)]
      rfl
  refine ⟨?_, ?_, ?_⟩
  · intro hcol
    rcases hcb with hcb | hcb
    · exact absurd hcb hcol
    · exact hcb
  · intro ⟨hcol, hblob⟩
    rcases hcb with hcb | hcb
    · exact hcol hcb
    · exact hblob hcb
  · intro d hd
    rw [finish_ok_eq b mgr d hd]
    rfl

/-- A learn-mode builder with one well-populated float feature. -/
def c8builder : TDataProviderBuilder :=
  { builder0 with
    FeatureBlobs := [[1, 2, 3, 4]]
    FeatureTypes := [EFeatureValuesType.Float]
    Borders := [[]]
    NanModes := [ENanMode.Forbidden] }

theorem c8_witness :
    ((compilePhase c8builder (documentOrder c8builder) mgr0).getD 0 default).blob
      = [] ∧
    (finishBuild c8builder mgr0).blobsAfter =
      (compilePhase c8builder (documentOrder c8builder) mgr0).map (fun o => o.blob) :=
  ⟨(c8_blob_released c8builder mgr0 0).1 (by decide),
   (c8_blob_released c8builder mgr0 0).2.2 (finishBuild c8builder mgr0) (by decide)⟩

/-- A learn-mode builder with a single constant-valued float feature. -/
def c7builder : TDataProviderBuilder :=
  { builder0 with
    FeatureBlobs := [[1, 1, 1, 1]]
    FeatureTypes := [EFeatureValuesType.Float]
    Borders := [[]]
    NanModes := [ENanMode.Forbidden] }

/-- A metadata store already holding borders for feature 0 (as a learn
build on the same feature manager would have left behind). -/
def c7mgr : TBinarizedFeaturesManager :=
  { NanModeCache := [], FloatBordersCache := [(0, [5])] }

/-- C7 counterexample: a float feature with a single distinct raw value
(fewer than 2 distinct values) whose borders are already cached in the
shared metadata store is NOT dropped — `finish()` succeeds and its
compiled column is present, refuting the claim for every feature with
fewer than 2 distinct values. -/
theorem c7_counterexample :
    isConstant (c7builder.FeatureBlobs.getD 0 []) = true ∧
    (¬ c7builder.FeatureBlobs.getD 0 [] = []) ∧
    (finish c7builder c7mgr).map
      (fun d => d.provider.Features.map TFeatureColumn.featureId) =
      Except.ok [0] := by
  decide

theorem makeOrderedLine_const_borders (source : List Int) (order : List Nat)
    (hconst : isConstant source = true) (hidx : ∀ i ∈ order, i < source.length) :
    buildBorders (makeOrderedLine source order 0) = [] := by
  apply buildBorders_const
  intro x hx y hy
  exact (isConstant_iff source).mp hconst x
    (mem_makeOrderedLine source order 0 hidx x hx) y
    (mem_makeOrderedLine source order 0 hidx y hy)

theorem documentOrder_set_blobs (b : TDataProviderBuilder) (x : List (List Int)) :
    documentOrder { b with FeatureBlobs := x } = documentOrder b := rfl

theorem sliceOf_set_ne (b : TDataProviderBuilder) (mgr : TBinarizedFeaturesManager)
    (fid : Nat) (blob2 : List Int) (j : Nat) (hj : ¬ fid = j) :
    sliceOf { b with FeatureBlobs := b.FeatureBlobs.set fid blob2 } mgr j =
      sliceOf b mgr j := by
  simp only [sliceOf]
  rw [show ((b.FeatureBlobs.set fid blob2).getD j []) = b.FeatureBlobs.getD j [] from
    getD_set_ne b.FeatureBlobs fid j blob2 [] hj]

/-- C7 (amended): a feature whose effective borders come out empty — a
pre-binarized feature declared with empty borders, or a float feature
with fewer than 2 distinct values when the shared store has no borders
cached for it (so none can override the freshly built empty set) — is
silently dropped: its compile step yields no column, `finish()` still
succeeds, the feature's name is retained in the dataset, no compiled
column carries its feature id, and every other feature's compile result
is unaffected by that feature's blob. -/
theorem c7_degenerate_dropped (b : TDataProviderBuilder)
    (mgr : TBinarizedFeaturesManager) (fid : Nat) (h : b.WellFormed)
    (h1 : b.IsDone = false) (h2 : b.Pairs = [] ∨ hasQueryIds b.QueryIds = true)
    (hw1 : ∀ w ∈ b.Weights, 0 ≤ w) (hw2 : ∃ w ∈ b.Weights, ¬ w = 0)
    (hnc : ¬ (isConstant b.Targets = true ∧ isConstant b.Pairs = true))
    (hfid : fid < b.FeatureBlobs.length)
    (hdeg :
      (b.FeatureTypes.getD fid EFeatureValuesType.Float = EFeatureValuesType.Float ∧
        isConstant (b.FeatureBlobs.getD fid []) = true ∧
        (¬ b.FeatureBlobs.getD fid [] = []) ∧
        b.Borders.getD fid [] = [] ∧ findVal mgr.FloatBordersCache fid = none) ∨
      (b.FeatureTypes.getD fid EFeatureValuesType.Float =
          EFeatureValuesType.BinarizedFloat ∧
        b.Borders.getD fid [] = [])) :
    ((compilePhase b (documentOrder b) mgr).getD fid default).column = none ∧
    finish b mgr = Except.ok (finishBuild b mgr) ∧
    (finishBuild b mgr).provider.FeatureNames.getD fid "" = getFeatureName b fid ∧
    (∀ c ∈ (finishBuild b mgr).provider.Features, ¬ c.featureId = fid) ∧
    (∀ blob2 : List Int, ∀ j : Nat, ¬ j = fid →
      (compilePhase { b with FeatureBlobs := b.FeatureBlobs.set fid blob2 }
          (documentOrder { b with FeatureBlobs := b.FeatureBlobs.set fid blob2 })
          mgr).getD j default =
        (compilePhase b (documentOrder b) mgr).getD j default) := by
  have hcol : ((compilePhase b (documentOrder b) mgr).getD fid default).column = none := by
    unfold compilePhase
    rw [getD_range_map _ _ _ _ hfid]
    rcases hdeg with ⟨htype, hconst, hne, hbord, hcache⟩ | ⟨htype, hbord⟩
    · rw [htype]
      have hlen : (b.FeatureBlobs.getD fid []).length = b.Targets.length := by
        rcases h.2.2.2.2 (b.FeatureBlobs.getD fid [])
            (getD_mem_of_lt b.FeatureBlobs fid [] hfid) with hz | hl
        · exact absurd hz hne
        · exact hl
      have hidx : ∀ i ∈ documentOrder b, i < (b.FeatureBlobs.getD fid []).length := by
        intro i hi
        rw [hlen]
        exact List.mem_range.mp ((documentOrder_perm b h).mem_iff.mp hi)
      rw [compileFeature_float_degenerate b.IsTest (documentOrder b) fid
        (getFeatureName b fid) (sliceOf b mgr fid) hne hcache hbord
        (makeOrderedLine_const_borders _ _ hconst hidx)]
    · rw [htype]
      exact compileFeature_binfloat_degenerate b.IsTest (documentOrder b) fid
        (getFeatureName b fid) (sliceOf b mgr fid) hbord
  have hguard : ¬((¬ b.Pairs = []) ∧ ¬ hasQueryIds b.QueryIds = true) := by
    rcases h2 with h2 | h2 <;> simp [h2]
  have hwperm := orderedWeights_perm b h
  have hok : finish b mgr = Except.ok (finishBuild b mgr) := by
    rcases hw2 with ⟨w, hw, hwne⟩
    have hvw : validateWeights (orderedWeights b) = Except.ok () :=
      validateWeights_ok _ (fun u hu => hw1 u (hwperm.mem_iff.mp hu))
        ⟨w, hwperm.mem_iff.mpr hw, hwne⟩
    have hct : isConstant (orderedTargets b) = isConstant b.Targets :=
      isConstant_of_perm _ _ (orderedTargets_perm b h)
    have hval : finishValidate b (orderedWeights b) (orderedTargets b) =
        Except.ok () := by
      refine finishValidate_ok b _ _ hvw ?_
      rw [hct]
      exact hnc
    rw [finish_eq b mgr h1 hguard, hval]
  refine ⟨hcol, hok, getD_range_map _ _ _ _ hfid, ?_, ?_⟩
  · intro c hc
    have hc2 : c ∈ (reconcile b.FeatureTypes
        ((compilePhase b (documentOrder b) mgr).map (fun o => o.column))
        ((compilePhase b (documentOrder b) mgr).map (fun o => o.borders))
        { NanModeCache :=
            mergeNanCache (compilePhase b (documentOrder b) mgr) mgr.NanModeCache
          FloatBordersCache := mgr.FloatBordersCache }).1 := hc
    rcases reconcile_fst_mem _ _ _ _ c hc2 with ⟨fid2, hfid2, hcol2⟩
    have hfid2lt : fid2 < (compilePhase b (documentOrder b) mgr).length := by
      have := List.mem_range.mp hfid2
      simpa using this
    rw [getD_map_lt _ _ _ _ default hfid2lt] at hcol2
    by_cases hff : fid2 = fid
    · rw [hff] at hcol2
      rw [hcol] at hcol2
      exact Option.noConfusion hcol2
    · have hfid2b : fid2 < b.FeatureBlobs.length := by
        simpa [compilePhase] using hfid2lt
      rw [show (compilePhase b (documentOrder b) mgr).getD fid2 default =
          compileFeature b.IsTest (documentOrder b)
            (b.FeatureTypes.getD fid2 EFeatureValuesType.Float) fid2
            (getFeatureName b fid2) (sliceOf b mgr fid2) from by
        unfold compilePhase
        exact getD_range_map _ _ _ _ hfid2b] at hcol2
      intro hcf
      apply hff
      rw [← hcf]
      exact (compileFeature_column_fid _ _ _ _ _ _ c hcol2).symm ▸ rfl
  · intro blob2 j hj
    by_cases hjf : j < b.FeatureBlobs.length
    · have hjf2 : j < (b.FeatureBlobs.set fid blob2).length := by
        rw [List.length_set]
        exact hjf
      show ((List.range (b.FeatureBlobs.set fid blob2).length).map
          (fun fid2 => compileFeature b.IsTest (documentOrder b)
            (b.FeatureTypes.getD fid2 EFeatureValuesType.Float) fid2
            (getFeatureName b fid2)
            (sliceOf { b with FeatureBlobs := b.FeatureBlobs.set fid blob2 } mgr
              fid2))).getD j default =
        ((List.range b.FeatureBlobs.length).map
          (fun fid2 => compileFeature b.IsTest (documentOrder b)
            (b.FeatureTypes.getD fid2 EFeatureValuesType.Float) fid2
            (getFeatureName b fid2) (sliceOf b mgr fid2))).getD j default
      rw [getD_range_map _ _ _ _ hjf2, getD_range_map _ _ _ _ hjf,
        sliceOf_set_ne b mgr fid blob2 j (fun hh => hj hh.symm)]
    · show ((List.range (b.FeatureBlobs.set fid blob2).length).map
          (fun fid2 => compileFeature b.IsTest (documentOrder b)
            (b.FeatureTypes.getD fid2 EFeatureValuesType.Float) fid2
            (getFeatureName b fid2)
            (sliceOf { b with FeatureBlobs := b.FeatureBlobs.set fid blob2 } mgr
              fid2))).getD j default =
        ((List.range b.FeatureBlobs.length).map
          (fun fid2 => compileFeature b.IsTest (documentOrder b)
            (b.FeatureTypes.getD fid2 EFeatureValuesType.Float) fid2
            (getFeatureName b fid2) (sliceOf b mgr fid2))).getD j default
      rw [List.getD_eq_default, List.getD_eq_default]
      · simpa using Nat.le_of_not_lt hjf
      · simp only [List.length_map, List.length_range, List.length_set]
        exact Nat.le_of_not_lt hjf

/-- A learn-mode builder with a constant float feature 0 and a
well-populated float feature 1. -/
def c7builder2 : TDataProviderBuilder :=
  { builder0 with
    FeatureBlobs := [[2, 2, 2, 2], [1, 2, 3, 4]]
    FeatureTypes := [EFeatureValuesType.Float, EFeatureValuesType.Float]
    Borders := [[], []]
    NanModes := [ENanMode.Forbidden, ENanMode.Forbidden] }

theorem c7_witness :
    ((compilePhase c7builder2 (documentOrder c7builder2) mgr0).getD 0 default).column
      = none ∧
    finish c7builder2 mgr0 = Except.ok (finishBuild c7builder2 mgr0) ∧
    (finishBuild c7builder2 mgr0).provider.FeatureNames.getD 0 "" =
      getFeatureName c7builder2 0 ∧
    (compilePhase
        { c7builder2 with
            FeatureBlobs := c7builder2.FeatureBlobs.set 0 [9, 9, 9, 9] }
        (documentOrder
          { c7builder2 with
              FeatureBlobs := c7builder2.FeatureBlobs.set 0 [9, 9, 9, 9] })
        mgr0).getD 1 default =
      (compilePhase c7builder2 (documentOrder c7builder2) mgr0).getD 1 default :=
  ⟨(c7_degenerate_dropped c7builder2 mgr0 0 (by decide) (by decide) (by decide)
      (by decide) (by decide) (by decide) (by decide) (by decide)).1,
   (c7_degenerate_dropped c7builder2 mgr0 0 (by decide) (by decide) (by decide)
      (by decide) (by decide) (by decide) (by decide) (by decide)).2.1,
   (c7_degenerate_dropped c7builder2 mgr0 0 (by decide) (by decide) (by decide)
      (by decide) (by decide) (by decide) (by decide) (by decide)).2.2.1,
   (c7_degenerate_dropped c7builder2 mgr0 0 (by decide) (by decide) (by decide)
      (by decide) (by decide) (by decide) (by decide) (by decide)).2.2.2.2
     [9, 9, 9, 9] 1 (by decide)⟩
